import Mathlib

/-!
# mapbox-gl-native: style engine, cache freshness and PNG premultiplication

A shallow embedding of

* `HTTPRequestBase::parseCacheControl` (`src/mbgl/storage/http_request_base.cpp`),
* the `Style` class (`src/mbgl/style/style.cpp`) together with the accessors of
  `StyleParser` (`src/mbgl/style/style_parser.hpp`),
* the premultiplication pass of `PngReader::read` (`platform/default/png_reader.cpp`),

followed by theorems about these definitions.

Conventions.  C++ vectors are lists, iterators are positions in the list (the
position `length` is `end()`), a null pointer is `none`, and a function that
throws returns the exception next to the state it leaves behind.  Collaborators
whose code is outside the sources at hand (`Source::update`, `StyleLayer::cascade`,
`StyleLayer::recalculate`, `ZoomHistory::update`, `ClassDictionary::lookup`, the
JSON and style parsers, `http::CacheControl::parse`) are taken as function
parameters, so every theorem holds for all their possible behaviours.
-/

namespace mbgl

/-! ## Cache freshness -/

/-- Conversion of an integer to `time_t`, a 64-bit two's complement word: the
value is reduced modulo `2 ^ 64` into the interval `[-2 ^ 63, 2 ^ 63)`. -/
def toTimeT (x : Int) : Int :=
  (x + 2 ^ 63) % 2 ^ 64 - 2 ^ 63

namespace http

/-- Modelled from the spec: the result of `http::CacheControl::parse`, declared in
`mbgl/util/http_header.hpp`.  The recognised directive is `max-age=<non-negative
integer seconds>`; a malformed or missing directive yields "no max-age". -/
structure CacheControl where
  maxAge : Option Nat
  deriving DecidableEq, Repr

end http

/-- `HTTPRequestBase::parseCacheControl`.  `value` is the header (`none` for the null
pointer), `parse` is `http::CacheControl::parse`, `now` is
`SystemClock::to_time_t(SystemClock::now())`.  The sum of a `time_t` and the
unsigned `max-age` is formed in 64-bit arithmetic and returned as a `time_t`. -/
def parseCacheControl (parse : String → http.CacheControl) (now : Int)
    (value : Option String) : Int :=
  match value with
  | some v =>
    match (parse v).maxAge with
    | some maxAge => toTimeT (now + maxAge)
    | none => 0
  | none => 0

/-! ## Style: data model -/

/-- Zoom level handed to `recalculate`; `Style` only passes it on. -/
abbrev Zoom := Int

/-- Point on the animation clock; `Style` only passes it on. -/
abbrev TimePoint := Int

/-- Length of time on the animation clock; `Style` only passes it on. -/
abbrev Duration := Int

/-- Modelled from the spec: `ClassID` of `mbgl/style/class_dictionary.hpp`, "a small
integer identifying a named style class" with the two reserved values `Default` and
`Fallback`. -/
inductive ClassID where
  | Fallback
  | Default
  | Named (n : Nat)
  deriving DecidableEq, Repr

/-- Modelled from the spec: the part of `MapData` (`mbgl/map/map_data.hpp`) that `Style`
reads: the active class names in declaration order, the animation clock and the
default transition and fade times. -/
structure MapData where
  classes : List String
  animationTime : TimePoint
  defaultTransitionDuration : Duration
  defaultTransitionDelay : Duration
  defaultFadeDuration : Duration
  deriving DecidableEq, Repr

/-- Modelled from the spec: `PropertyTransition`, "a transition's duration/delay". -/
structure PropertyTransition where
  duration : Duration
  delay : Duration
  deriving DecidableEq, Repr

/-- Arguments of the constructor call `StyleCascadeParameters(classes, now, transition)`
in `Style::cascade`. -/
structure StyleCascadeParameters where
  classes : List ClassID
  now : TimePoint
  defaultTransition : PropertyTransition
  deriving DecidableEq, Repr

/-- Modelled from the spec: `ZoomHistory`, which "remembers the previous zoom level and
the animation-clock time at which the most recent zoom change was observed". -/
structure ZoomHistory where
  lastZoom : Zoom
  lastChange : TimePoint
  deriving DecidableEq, Repr

/-- Arguments of the constructor call
`StyleCalculationParameters(z, now, zoomHistory, defaultFadeDuration)` in
`Style::recalculate`. -/
structure StyleCalculationParameters where
  z : Zoom
  now : TimePoint
  zoomHistory : ZoomHistory
  defaultFadeDuration : Duration
  deriving DecidableEq, Repr

/-- A `Source` as far as `Style` touches it: `info.source_id`, the public `enabled`
flag, whether an observer is attached (`setObserver`), whether `load()` has been
called, the answer of `isLoaded()`, and the tile state that `Source::update` works on
(never inspected by `Style`). -/
structure Source where
  source_id : String
  enabled : Bool
  observed : Bool
  loadStarted : Bool
  loaded : Bool
  tiles : Nat
  deriving DecidableEq, Repr

/-- Modelled from the spec: `Source::setObserver(this)`, which "attaches the engine as
the source's observer". -/
def Source.setObserver (src : Source) : Source :=
  { src with observed := true }

/-- Modelled from the spec: `Source::load()`, which "begins the source's load
sequence". -/
def Source.load (src : Source) : Source :=
  { src with loadStarted := true }

/-- A `StyleLayer` as far as `Style` touches it: its `id`, the id of the source it
references (`source`), and the property tables that `cascade` and `recalculate` of
the layer work on (never inspected by `Style`). -/
structure StyleLayer where
  id : String
  source : String
  props : Nat
  deriving DecidableEq, Repr

/-- Events delivered to the observer registered with `Style::setObserver`. -/
inductive Event where
  | tileDataChanged
  | resourceLoadingFailed (error : Option String)
  deriving DecidableEq, Repr

/-- The mutable state of a `Style` object.  `hasObserver` tells whether `observer` is
non-null, `delivered` lists the calls made on the observer so far (oldest first),
`glyphURL` and `spriteURL` are the URLs held by the glyph and sprite stores and
`spriteLoaded` is the answer of `spriteStore->isLoaded()`. -/
structure Style where
  data : MapData
  sources : List Source
  layers : List StyleLayer
  glyphURL : String
  spriteURL : String
  spriteLoaded : Bool
  zoomHistory : ZoomHistory
  loaded : Bool
  hasPendingTransitions : Bool
  shouldReparsePartialTiles : Bool
  hasObserver : Bool
  delivered : List Event
  deriving DecidableEq, Repr

/-- Modelled from the spec: the state a `Style` has after its constructor.  The
default member values are declared in `mbgl/style/style.hpp`: no sources, no layers,
not loaded, no pending transition, no pending reparse, no observer. -/
def Style.init (data : MapData) : Style :=
  { data := data
    sources := []
    layers := []
    glyphURL := ""
    spriteURL := ""
    spriteLoaded := false
    zoomHistory := { lastZoom := 0, lastChange := 0 }
    loaded := false
    hasPendingTransitions := false
    shouldReparsePartialTiles := false
    hasObserver := false
    delivered := [] }

/-- The state of a `StyleParser` after `parse`, read through `getSources`, `getLayers`,
`getSpriteURL` and `getGlyphURL`. -/
structure StyleParser where
  sources : List Source
  layers : List StyleLayer
  spriteURL : String
  glyphURL : String
  deriving DecidableEq, Repr

/-! ## Style: operations -/

/-- `Style::addSource`: the style becomes the observer of the source, the source starts
loading, and it is put at the end of `sources` (`emplace_back`). -/
def Style.addSource (s : Style) (source : Source) : Style :=
  { s with sources := s.sources ++ [source.setObserver.load] }

/-- `Style::findLayer`: the position of the first layer whose id is `id`
(`std::find_if`), or the length of the sequence (`layers.end()`) when there is
none. -/
def findLayer (layers : List StyleLayer) (id : String) : Nat :=
  layers.findIdx (fun layer => layer.id == id)

/-- `Style::getLayer`: the layer at `findLayer`, or `none` (`nullptr`) at `end()`. -/
def Style.getLayer (s : Style) (id : String) : Option StyleLayer :=
  s.layers[findLayer s.layers id]?

/-- `std::vector::emplace(pos, x)`: `x` is put before the element at position `pos`;
at position `length` it is put at the end. -/
def emplace {α : Type} (xs : List α) (pos : Nat) (x : α) : List α :=
  xs.take pos ++ x :: xs.drop pos

/-- `Style::addLayer(layer)`: `layers.emplace_back`. -/
def Style.addLayer (s : Style) (layer : StyleLayer) : Style :=
  { s with layers := s.layers ++ [layer] }

/-- `Style::addLayer(layer, before)`: `layers.emplace(findLayer(before), layer)`. -/
def Style.addLayerBefore (s : Style) (layer : StyleLayer) (before : String) : Style :=
  { s with layers := emplace s.layers (findLayer s.layers before) layer }

/-- `Style::removeLayer`.  The first component is the outcome (`error` carries the
message of the `std::runtime_error`), the second the state left behind. -/
def Style.removeLayer (s : Style) (id : String) : Except String Unit × Style :=
  let it := findLayer s.layers id
  if it = s.layers.length then
    (Except.error "no such layer", s)
  else
    (Except.ok (), { s with layers := s.layers.eraseIdx it })

/-- `Style::setJSON`.  `parse json` is `none` when `doc.HasParseError()` holds after
`doc.Parse(json)`, and otherwise the parser state after `parser.parse(doc)`.  On a
parse error the function logs and returns; otherwise it calls `addSource` for each
parsed source, `addLayer` for each parsed layer, sets the two URLs and `loaded`. -/
def Style.setJSON (parse : String → Option StyleParser) (s : Style) (json : String) :
    Style :=
  match parse json with
  | none => s
  | some parser =>
    let s1 := parser.sources.foldl Style.addSource s
    let s2 := parser.layers.foldl Style.addLayer s1
    { s2 with glyphURL := parser.glyphURL, spriteURL := parser.spriteURL, loaded := true }

/-- The loop of `Style::update` over `sources`.  `W` is the state shared by the calls
(`data`, the texture pool, the network), `sourceUpdate` is `Source::update`, which
receives the flag `shouldReparsePartialTiles` and works on its own source and on the
shared state (results of the requests it issues arrive later, through the callbacks);
the last component is `allTilesUpdated`. -/
def updateSources {W : Type} (sourceUpdate : W → Source → Bool → W × Source × Bool)
    (flag : Bool) : W → List Source → Bool → W × List Source × Bool
  | w, [], allTilesUpdated => (w, [], allTilesUpdated)
  | w, source :: rest, allTilesUpdated =>
    let r := sourceUpdate w source flag
    let out := updateSources sourceUpdate flag r.1 rest
      (if !r.2.2 then false else allTilesUpdated)
    (out.1, r.2.1 :: out.2.1, out.2.2)

/-- `Style::update`. -/
def Style.update {W : Type} (sourceUpdate : W → Source → Bool → W × Source × Bool)
    (w : W) (s : Style) : W × Style :=
  let out := updateSources sourceUpdate s.shouldReparsePartialTiles w s.sources true
  (out.1,
   { s with
     sources := out.2.1
     shouldReparsePartialTiles := if out.2.2 then false else s.shouldReparsePartialTiles })

/-- The class list built at the start of `Style::cascade`: one `push_back` of
`ClassDictionary::Get().lookup(name)` per class name, walking the names from
`rbegin()` to `rend()`, then `Default`, then `Fallback`. -/
def cascadeClasses (lookup : String → ClassID) (classNames : List String) :
    List ClassID :=
  let classes := classNames.reverse.foldl (fun acc name => acc ++ [lookup name]) []
  (classes ++ [ClassID.Default]) ++ [ClassID.Fallback]

/-- The loop of `Style::cascade` over `layers`.  `W` is the state shared by the calls,
`layerCascade` is `StyleLayer::cascade`, which yields the new property tables of the
layer and leaves its `id` and `source` alone. -/
def cascadeLayers {W : Type} (layerCascade : W → StyleCascadeParameters → StyleLayer → W × Nat)
    (parameters : StyleCascadeParameters) : W → List StyleLayer → W × List StyleLayer
  | w, [] => (w, [])
  | w, layer :: rest =>
    let r := layerCascade w parameters layer
    let out := cascadeLayers layerCascade parameters r.1 rest
    (out.1, { layer with props := r.2 } :: out.2)

/-- `Style::cascade`. -/
def Style.cascade {W : Type} (lookup : String → ClassID)
    (layerCascade : W → StyleCascadeParameters → StyleLayer → W × Nat)
    (w : W) (s : Style) : W × Style :=
  let parameters : StyleCascadeParameters :=
    { classes := cascadeClasses lookup s.data.classes
      now := s.data.animationTime
      defaultTransition :=
        { duration := s.data.defaultTransitionDuration
          delay := s.data.defaultTransitionDelay } }
  let out := cascadeLayers layerCascade parameters w s.layers
  (out.1, { s with layers := out.2 })

/-- `Style::getSource`: the position of the first source whose `info.source_id` is
`id` (`std::find_if`), or `none` (`nullptr`) when there is none. -/
def getSource : List Source → String → Option Nat
  | [], _ => none
  | source :: rest, id =>
    if source.source_id == id then some 0
    else (getSource rest id).map (fun i => i + 1)

/-- The assignment `source->enabled = true` for the source at position `i`. -/
def enableAt : List Source → Nat → List Source
  | [], _ => []
  | source :: rest, 0 => { source with enabled := true } :: rest
  | source :: rest, i + 1 => source :: enableAt rest i

/-- The loop of `Style::recalculate` over `layers`.  `layerRecalculate` is
`StyleLayer::recalculate`, which yields the new property tables of the layer (leaving
its `id` and `source` alone) and whether a transition is pending; the last component
is `hasPendingTransitions`, which each layer's answer is or-ed into. -/
def recalculateLayers (layerRecalculate : StyleCalculationParameters → StyleLayer → Nat × Bool)
    (parameters : StyleCalculationParameters) :
    List StyleLayer → List Source → Bool → List StyleLayer × List Source × Bool
  | [], sources, pending => ([], sources, pending)
  | layer :: rest, sources, pending =>
    let r := layerRecalculate parameters layer
    let sources1 :=
      match getSource sources layer.source with
      | none => sources
      | some i => enableAt sources i
    let out := recalculateLayers layerRecalculate parameters rest sources1 (pending || r.2)
    ({ layer with props := r.1 } :: out.1, out.2.1, out.2.2)

/-- `Style::recalculate`.  `zoomUpdate` is `ZoomHistory::update`. -/
def Style.recalculate (zoomUpdate : ZoomHistory → Zoom → TimePoint → ZoomHistory)
    (layerRecalculate : StyleCalculationParameters → StyleLayer → Nat × Bool)
    (s : Style) (z : Zoom) : Style :=
  let sources0 := s.sources.map (fun source => { source with enabled := false })
  let zoomHistory := zoomUpdate s.zoomHistory z s.data.animationTime
  let parameters : StyleCalculationParameters :=
    { z := z
      now := s.data.animationTime
      zoomHistory := zoomHistory
      defaultFadeDuration := s.data.defaultFadeDuration }
  let out := recalculateLayers layerRecalculate parameters s.layers sources0
    s.hasPendingTransitions
  { s with
    sources := out.2.1
    layers := out.1
    zoomHistory := zoomHistory
    hasPendingTransitions := out.2.2 }

/-- `Style::hasTransitions`. -/
def Style.hasTransitions (s : Style) : Bool :=
  s.hasPendingTransitions

/-- `Style::isLoaded`. -/
def Style.isLoaded (s : Style) : Bool :=
  if !s.loaded then false
  else if s.sources.any (fun source => !source.loaded) then false
  else if !s.spriteLoaded then false
  else true

/-- `Style::emitTileDataChanged`: one call of `observer->onTileDataChanged()` when an
observer is registered, nothing otherwise. -/
def Style.emitTileDataChanged (s : Style) : Style :=
  if s.hasObserver then { s with delivered := s.delivered ++ [Event.tileDataChanged] }
  else s

/-- `Style::onGlyphRangeLoaded`. -/
def Style.onGlyphRangeLoaded (s : Style) : Style :=
  Style.emitTileDataChanged { s with shouldReparsePartialTiles := true }

/-- `Style::onSourceLoaded`. -/
def Style.onSourceLoaded (s : Style) : Style :=
  Style.emitTileDataChanged s

/-- `Style::onTileLoaded`. -/
def Style.onTileLoaded (s : Style) (isNewTile : Bool) : Style :=
  Style.emitTileDataChanged
    (if isNewTile then { s with shouldReparsePartialTiles := true } else s)

/-- `Style::onSpriteLoaded`. -/
def Style.onSpriteLoaded (s : Style) : Style :=
  Style.emitTileDataChanged { s with shouldReparsePartialTiles := true }

/-! ## Call records

`Style::cascade` and `Style::update` call into every layer and every source.  To
state which calls are made, in which order and with which arguments, a collaborator
is wrapped so that it appends a record of each call to a log carried in the shared
state, and otherwise behaves as before. -/

/-- One call of `Source::update`: the source it was made on, the flag it received and
the value it returned. -/
structure UpdateCall where
  source : Source
  flag : Bool
  result : Bool
  deriving DecidableEq, Repr

/-- `sourceUpdate` with a log of its calls. -/
def recordUpdate {W : Type} (sourceUpdate : W → Source → Bool → W × Source × Bool) :
    W × List UpdateCall → Source → Bool → (W × List UpdateCall) × Source × Bool :=
  fun w source flag =>
    let r := sourceUpdate w.1 source flag
    ((r.1, w.2 ++ [{ source := source, flag := flag, result := r.2.2 }]), r.2.1, r.2.2)

/-- One call of `StyleLayer::cascade`: the layer it was made on and the parameters it
received. -/
structure CascadeCall where
  layer : StyleLayer
  parameters : StyleCascadeParameters
  deriving DecidableEq, Repr

/-- `layerCascade` with a log of its calls. -/
def recordCascade {W : Type}
    (layerCascade : W → StyleCascadeParameters → StyleLayer → W × Nat) :
    W × List CascadeCall → StyleCascadeParameters → StyleLayer → (W × List CascadeCall) × Nat :=
  fun w parameters layer =>
    let r := layerCascade w.1 parameters layer
    ((r.1, w.2 ++ [{ layer := layer, parameters := parameters }]), r.2)

/-! ## PNG premultiplication

`PngReader::read` premultiplies in single precision:
`const float a = ptr[3] / 255.0f; ptr[0] *= a; ptr[1] *= a; ptr[2] *= a;`.
The bytes are converted to `float` exactly, the quotient and the products are rounded
to `float` (IEEE 754 binary32, round to nearest, ties to even), and the assignment
back to a `png_byte` drops the fraction.  All values that occur are zero or positive
and below `2 ^ 24`, so a `float` is kept as the exact rational `mant / 2 ^ scale`. -/

/-- A finite `float` that is zero or positive: the rational `mant / 2 ^ scale`. -/
structure Float32 where
  mant : Nat
  scale : Nat
  deriving DecidableEq, Repr

/-- The integer nearest to `n / d`, the even one of the two when `n / d` lies halfway. -/
def roundHalfEven (n d : Nat) : Nat :=
  let q := n / d
  let r := n % d
  if 2 * r < d then q
  else if d < 2 * r then q + 1
  else if q % 2 = 0 then q else q + 1

/-- The binary scale of the `float` nearest to `n / d`: the least `s` from `start` on
with `2 ^ 23 ≤ (n / d) * 2 ^ s`, so that the significand `(n / d) * 2 ^ s` has 24 bits;
the search stops after `fuel` steps, at the scale `2 ^ -149` of the subnormal
numbers. -/
def normShiftFrom (n d : Nat) : Nat → Nat → Nat
  | 0, s => s
  | fuel + 1, s => if 2 ^ 23 * d ≤ n * 2 ^ s then s else normShiftFrom n d fuel (s + 1)

/-- The `float` nearest to the rational `n / d`, for `0 ≤ n / d < 2 ^ 24`: the
significand is `n / d` on the scale found by `normShiftFrom`, rounded to an integer
with ties to even. -/
def roundFloat32 (n d : Nat) : Float32 :=
  if n = 0 then { mant := 0, scale := 0 }
  else
    let s := normShiftFrom n d 149 0
    { mant := roundHalfEven (n * 2 ^ s) d, scale := s }

/-- `ptr[3] / 255.0f`: both operands are exact, the quotient is rounded. -/
def alphaFraction (alpha : Nat) : Float32 :=
  roundFloat32 alpha 255

/-- `ptr[i] *= a` on a `png_byte`: the exact product of the byte and `a` is rounded to
`float`, and the conversion to `png_byte` drops the fraction. -/
def scaleByte (c : Nat) (a : Float32) : Nat :=
  let product := roundFloat32 (c * a.mant) (2 ^ a.scale)
  (product.mant / 2 ^ product.scale) % 256

/-- The body of the inner loop of the premultiplication pass for the pixel whose first
byte is at offset `base` of the image buffer. -/
def premultiplyAt (image : List Nat) (base : Nat) : List Nat :=
  let a := alphaFraction (image.getD (base + 3) 0)
  let image0 := image.set base (scaleByte (image.getD base 0) a)
  let image1 := image0.set (base + 1) (scaleByte (image0.getD (base + 1) 0) a)
  image1.set (base + 2) (scaleByte (image1.getD (base + 2) 0) a)

/-- The offset of `&(rows[row][x * 4])` in the image buffer: `rows[row]` is
`image.get() + row * width_ * 4`; both products are formed in `unsigned` (32-bit)
arithmetic. -/
def pixelOffset (width row x : Nat) : Nat :=
  (row * width * 4) % 2 ^ 32 + (x * 4) % 2 ^ 32

/-- The premultiplication pass of `PngReader::read` over the decoded RGBA buffer:
for each `row` below `height_` and each `x` below `width_`, in this order. -/
def premultiplyPass (width height : Nat) (image : List Nat) : List Nat :=
  (List.range height).foldl
    (fun img row =>
      (List.range width).foldl (fun img1 x => premultiplyAt img1 (pixelOffset width row x)) img)
    image

/-- The byte at offset `i` of the premultiplied image as the specification words it:
the alpha byte of a pixel (offset `3` within the pixel) is kept, a colour byte `c` of
a pixel with alpha `a` becomes `⌊c * a / 255⌋`. -/
def premultipliedByte (image : List Nat) (i : Nat) : Nat :=
  if i % 4 = 3 then image.getD i 0
  else image.getD i 0 * image.getD (i / 4 * 4 + 3) 0 / 255

/-! ## Cache freshness: theorems -/

theorem toTimeT_of_fits (x : Int) (hlo : -2 ^ 63 ≤ x) (hhi : x < 2 ^ 63) :
    toTimeT x = x := by
  unfold toTimeT
  rw [Int.emod_eq_of_lt (by omega) (by omega)]
  omega

/-- C1 (as stated, refuted): with the clock at 1700000000 and a header whose parsed
form carries `max-age = 2 ^ 63 - 1`, the returned expiry is negative and differs from
the clock plus the max-age. -/
theorem parseCacheControl_overflow :
    parseCacheControl (fun _ => { maxAge := some 9223372036854775807 }) 1700000000
        (some "max-age=9223372036854775807") = -9223372035154775809 ∧
      parseCacheControl (fun _ => { maxAge := some 9223372036854775807 }) 1700000000
        (some "max-age=9223372036854775807") ≠ 1700000000 + (9223372036854775807 : Nat) := by
  constructor <;> decide

/-- C1 (amended): for a non-null header whose parsed form carries `max-age = N`, the
returned expiry is the clock plus `N` whenever that sum is a `time_t` value (at most
`2 ^ 63 - 1`); for a non-null header without max-age, and for the null header, the
returned expiry is 0. -/
theorem parseCacheControl_expiry (parse : String → http.CacheControl) (now : Int)
    (value : String) :
    (∀ N : Nat, (parse value).maxAge = some N → -2 ^ 63 ≤ now + N → now + N < 2 ^ 63 →
        parseCacheControl parse now (some value) = now + N) ∧
      ((parse value).maxAge = none → parseCacheControl parse now (some value) = 0) ∧
      parseCacheControl parse now none = 0 := by
  refine ⟨?_, ?_, rfl⟩
  · intro N hN hlo hhi
    simp only [parseCacheControl, hN]
    exact toTimeT_of_fits _ hlo hhi
  · intro hN
    simp only [parseCacheControl, hN]

/-- Instance of `parseCacheControl_expiry`: clock 1700000000, header `max-age=60`. -/
theorem parseCacheControl_expiry_witness :
    parseCacheControl (fun v => if v = "max-age=60" then { maxAge := some 60 } else { maxAge := none })
        1700000000 (some "max-age=60") = 1700000060 ∧
      parseCacheControl (fun v => if v = "max-age=60" then { maxAge := some 60 } else { maxAge := none })
        1700000000 (some "no-cache") = 0 :=
  ⟨(parseCacheControl_expiry
      (fun v => if v = "max-age=60" then { maxAge := some 60 } else { maxAge := none })
      1700000000 "max-age=60").1 60 (by simp) (by decide) (by decide),
   (parseCacheControl_expiry
      (fun v => if v = "max-age=60" then { maxAge := some 60 } else { maxAge := none })
      1700000000 "no-cache").2.1 (by simp)⟩

/-! ## Layer sequence: theorems -/

theorem findLayer_nil (X : String) : findLayer [] X = 0 := by
  simp [findLayer]

theorem findLayer_cons (a : StyleLayer) (rest : List StyleLayer) (X : String) :
    findLayer (a :: rest) X = if a.id = X then 0 else findLayer rest X + 1 := by
  simp only [findLayer, List.findIdx_cons]
  by_cases h : a.id = X
  · simp [h]
  · have hb : (a.id == X) = false := beq_eq_false_iff_ne.mpr h
    simp [h, hb]

theorem findLayer_append_hit (pre post : List StyleLayer) (x : StyleLayer) (X : String)
    (hpre : ∀ l ∈ pre, l.id ≠ X) (hx : x.id = X) :
    findLayer (pre ++ x :: post) X = pre.length := by
  induction pre with
  | nil => simp [findLayer_cons, hx]
  | cons a pre ih =>
    have ha : a.id ≠ X := hpre a (List.mem_cons_self _ _)
    have ih2 := ih (fun l hl => hpre l (List.mem_cons_of_mem _ hl))
    simp [findLayer_cons, ha, ih2]

theorem findLayer_miss (layers : List StyleLayer) (X : String)
    (h : ∀ l ∈ layers, l.id ≠ X) : findLayer layers X = layers.length := by
  induction layers with
  | nil => simp [findLayer_nil]
  | cons a rest ih =>
    have ha : a.id ≠ X := h a (List.mem_cons_self _ _)
    have ih2 := ih (fun l hl => h l (List.mem_cons_of_mem _ hl))
    simp [findLayer_cons, ha, ih2]

theorem findLayer_le (layers : List StyleLayer) (X : String) :
    findLayer layers X ≤ layers.length := by
  induction layers with
  | nil => simp [findLayer_nil]
  | cons a rest ih =>
    rw [findLayer_cons]
    split
    · simp
    · simp only [List.length_cons]; omega

theorem findLayer_split (layers : List StyleLayer) (X : String)
    (h : findLayer layers X < layers.length) :
    ∃ pre x post, layers = pre ++ x :: post ∧ (∀ l ∈ pre, l.id ≠ X) ∧ x.id = X := by
  induction layers with
  | nil => simp at h
  | cons a rest ih =>
    by_cases ha : a.id = X
    · exact ⟨[], a, rest, rfl, by simp, ha⟩
    · have hlt : findLayer rest X < rest.length := by
        rw [findLayer_cons, if_neg ha] at h
        simp only [List.length_cons] at h
        omega
      obtain ⟨pre, x, post, hl, hpre, hx⟩ := ih hlt
      refine ⟨a :: pre, x, post, by simp [hl], ?_, hx⟩
      intro l hl2
      rcases List.mem_cons.mp hl2 with rfl | hl3
      · exact ha
      · exact hpre l hl3

theorem emplace_length {α : Type} (xs : List α) (pos : Nat) (x : α) (h : pos ≤ xs.length) :
    (emplace xs pos x).length = xs.length + 1 := by
  simp [emplace, List.length_take, List.length_drop]
  omega

theorem emplace_sublist {α : Type} (xs : List α) (pos : Nat) (x : α) :
    xs.Sublist (emplace xs pos x) := by
  have h : xs = xs.take pos ++ xs.drop pos := (List.take_append_drop pos xs).symm
  conv_lhs => rw [h]
  exact List.Sublist.append (List.Sublist.refl _) (List.sublist_cons_self _ _)

/-- C2: `addLayer(L, X)` puts `L` immediately before the first layer whose id is `X`
when there is one and at the end when there is none; `addLayer(L)` puts `L` at the
end.  In each case the sequence grows by exactly one and the layers present before
keep their relative order (they form a sublist of the new sequence). -/
theorem addLayer_position (s : Style) (L : StyleLayer) (X : String) :
    (∀ pre x post, s.layers = pre ++ x :: post → (∀ l ∈ pre, l.id ≠ X) → x.id = X →
        (s.addLayerBefore L X).layers = pre ++ L :: x :: post) ∧
      ((∀ l ∈ s.layers, l.id ≠ X) → (s.addLayerBefore L X).layers = s.layers ++ [L]) ∧
      (s.addLayer L).layers = s.layers ++ [L] ∧
      (s.addLayerBefore L X).layers.length = s.layers.length + 1 ∧
      (s.addLayer L).layers.length = s.layers.length + 1 ∧
      s.layers.Sublist (s.addLayerBefore L X).layers ∧
      s.layers.Sublist (s.addLayer L).layers := by
  refine ⟨?_, ?_, rfl, ?_, ?_, ?_, ?_⟩
  · intro pre x post hl hpre hx
    simp only [Style.addLayerBefore, emplace, hl, findLayer_append_hit pre post x X hpre hx]
    simp
  · intro h
    simp only [Style.addLayerBefore, emplace, findLayer_miss s.layers X h]
    simp
  · exact emplace_length _ _ _ (findLayer_le _ _)
  · simp [Style.addLayer]
  · exact emplace_sublist _ _ _
  · simp [Style.addLayer]

/-- Instance of `addLayer_position`: inserting before "b" in the sequence a, b, c, b. -/
theorem addLayer_position_witness :
    (Style.addLayerBefore
        { Style.init ⟨[], 0, 0, 0, 0⟩ with
          layers := [⟨"a", "s", 0⟩, ⟨"b", "s", 0⟩, ⟨"c", "s", 0⟩, ⟨"b", "t", 0⟩] }
        ⟨"new", "s", 0⟩ "b").layers
      = [⟨"a", "s", 0⟩, ⟨"new", "s", 0⟩, ⟨"b", "s", 0⟩, ⟨"c", "s", 0⟩, ⟨"b", "t", 0⟩] :=
  (addLayer_position
      { Style.init ⟨[], 0, 0, 0, 0⟩ with
        layers := [⟨"a", "s", 0⟩, ⟨"b", "s", 0⟩, ⟨"c", "s", 0⟩, ⟨"b", "t", 0⟩] }
      ⟨"new", "s", 0⟩ "b").1
    [⟨"a", "s", 0⟩] ⟨"b", "s", 0⟩ [⟨"c", "s", 0⟩, ⟨"b", "t", 0⟩] rfl (by simp) rfl

theorem eraseIdx_append_length {α : Type} (pre post : List α) (x : α) :
    (pre ++ x :: post).eraseIdx pre.length = pre ++ post := by
  induction pre with
  | nil => simp
  | cons a pre ih => simp [ih]

theorem findLayer_eq_length_iff (layers : List StyleLayer) (X : String) :
    findLayer layers X = layers.length ↔ ∀ l ∈ layers, l.id ≠ X := by
  constructor
  · intro h l hl hid
    induction layers with
    | nil => simp at hl
    | cons a rest ih =>
      rw [findLayer_cons] at h
      by_cases ha : a.id = X
      · simp [ha] at h
      · rw [if_neg ha] at h
        simp only [List.length_cons] at h
        rcases List.mem_cons.mp hl with rfl | hl2
        · exact ha hid
        · exact ih (by omega) hl2
  · exact findLayer_miss layers X

/-- C3: `removeLayer(id)` throws "no such layer" exactly when no layer has that id, and
then leaves the style as it was; otherwise it succeeds and removes exactly the first
layer with that id, the other layers keeping their order. -/
theorem removeLayer_outcome (s : Style) (id : String) :
    ((s.removeLayer id).1 = Except.error "no such layer" ↔ ∀ l ∈ s.layers, l.id ≠ id) ∧
      ((s.removeLayer id).1 = Except.ok () ↔ ∃ l ∈ s.layers, l.id = id) ∧
      ((∀ l ∈ s.layers, l.id ≠ id) → (s.removeLayer id).2 = s) ∧
      (∀ pre x post, s.layers = pre ++ x :: post → (∀ l ∈ pre, l.id ≠ id) → x.id = id →
        s.removeLayer id = (Except.ok (), { s with layers := pre ++ post })) := by
  have key := findLayer_eq_length_iff s.layers id
  refine ⟨?_, ?_, ?_, ?_⟩
  · rw [← key]
    unfold Style.removeLayer
    by_cases h : findLayer s.layers id = s.layers.length
    · simp [h]
    · simp [h]
  · have hex : (∃ l ∈ s.layers, l.id = id) ↔ ¬ (∀ l ∈ s.layers, l.id ≠ id) := by
      push_neg
      rfl
    rw [hex, ← key]
    unfold Style.removeLayer
    by_cases h : findLayer s.layers id = s.layers.length
    · simp [h]
    · simp [h]
  · intro h
    unfold Style.removeLayer
    simp [key.mpr h]
  · intro pre x post hl hpre hx
    have hpos : findLayer s.layers id = pre.length := by
      rw [hl]
      exact findLayer_append_hit pre post x id hpre hx
    unfold Style.removeLayer
    have hne : ¬ (pre.length = s.layers.length) := by
      rw [hl]
      simp
    simp only [hpos, hne, if_false]
    rw [hl, eraseIdx_append_length]

/-- Instance of `removeLayer_outcome`: removing "b" from the sequence a, b, c, b, and
removing the absent id "z". -/
theorem removeLayer_outcome_witness :
    Style.removeLayer
        { Style.init ⟨[], 0, 0, 0, 0⟩ with
          layers := [⟨"a", "s", 0⟩, ⟨"b", "s", 0⟩, ⟨"c", "s", 0⟩, ⟨"b", "t", 0⟩] } "b"
      = (Except.ok (),
          { Style.init ⟨[], 0, 0, 0, 0⟩ with
            layers := [⟨"a", "s", 0⟩, ⟨"c", "s", 0⟩, ⟨"b", "t", 0⟩] }) ∧
    (Style.removeLayer
        { Style.init ⟨[], 0, 0, 0, 0⟩ with
          layers := [⟨"a", "s", 0⟩, ⟨"b", "s", 0⟩, ⟨"c", "s", 0⟩, ⟨"b", "t", 0⟩] } "z").2
      = { Style.init ⟨[], 0, 0, 0, 0⟩ with
          layers := [⟨"a", "s", 0⟩, ⟨"b", "s", 0⟩, ⟨"c", "s", 0⟩, ⟨"b", "t", 0⟩] } :=
  ⟨(removeLayer_outcome
      { Style.init ⟨[], 0, 0, 0, 0⟩ with
        layers := [⟨"a", "s", 0⟩, ⟨"b", "s", 0⟩, ⟨"c", "s", 0⟩, ⟨"b", "t", 0⟩] } "b").2.2.2
      [⟨"a", "s", 0⟩] ⟨"b", "s", 0⟩ [⟨"c", "s", 0⟩, ⟨"b", "t", 0⟩] rfl (by simp) rfl,
   (removeLayer_outcome
      { Style.init ⟨[], 0, 0, 0, 0⟩ with
        layers := [⟨"a", "s", 0⟩, ⟨"b", "s", 0⟩, ⟨"c", "s", 0⟩, ⟨"b", "t", 0⟩] } "z").2.2.1
      (by simp)⟩

/-! ## Cascade: theorems -/

theorem pushBack_foldl (lookup : String → ClassID) (names : List String) (acc : List ClassID) :
    names.foldl (fun acc name => acc ++ [lookup name]) acc = acc ++ names.map lookup := by
  induction names generalizing acc with
  | nil => simp
  | cons a rest ih => simp [ih]

theorem cascadeClasses_eq (lookup : String → ClassID) (names : List String) :
    cascadeClasses lookup names
      = (names.map lookup).reverse ++ [ClassID.Default, ClassID.Fallback] := by
  unfold cascadeClasses
  rw [pushBack_foldl]
  simp [List.map_reverse]

theorem cascadeLayers_record {W : Type}
    (f : W → StyleCascadeParameters → StyleLayer → W × Nat) (p : StyleCascadeParameters)
    (layers : List StyleLayer) (w : W) (log : List CascadeCall) :
    (cascadeLayers (recordCascade f) p (w, log) layers).1.2
        = log ++ layers.map (fun l => { layer := l, parameters := p }) ∧
      (cascadeLayers (recordCascade f) p (w, log) layers).1.1
        = (cascadeLayers f p w layers).1 ∧
      (cascadeLayers (recordCascade f) p (w, log) layers).2
        = (cascadeLayers f p w layers).2 := by
  induction layers generalizing w log with
  | nil => simp [cascadeLayers]
  | cons a rest ih =>
    simp only [cascadeLayers, recordCascade]
    obtain ⟨h1, h2, h3⟩ := ih (f w p a).1 (log ++ [{ layer := a, parameters := p }])
    refine ⟨?_, ?_, ?_⟩
    · rw [h1]; simp
    · rw [h2]
    · rw [h3]

/-- C4: for active class names `c1, ..., cn` the class list handed to the layers is
`[id(cn), ..., id(c1), Default, Fallback]`, of length `n + 2` (`[Default, Fallback]`
when no class is active); `cascade` calls every layer once, in layer order, each
time with the same parameters carrying that list; and recording the calls does not
change the outcome. -/
theorem cascade_class_precedence {W : Type} (lookup : String → ClassID)
    (layerCascade : W → StyleCascadeParameters → StyleLayer → W × Nat) (w : W) (s : Style) :
    cascadeClasses lookup s.data.classes
        = (s.data.classes.map lookup).reverse ++ [ClassID.Default, ClassID.Fallback] ∧
      (cascadeClasses lookup s.data.classes).length = s.data.classes.length + 2 ∧
      cascadeClasses lookup [] = [ClassID.Default, ClassID.Fallback] ∧
      (Style.cascade lookup (recordCascade layerCascade) (w, []) s).1.2
        = s.layers.map (fun l =>
            { layer := l
              parameters :=
                { classes := (s.data.classes.map lookup).reverse
                    ++ [ClassID.Default, ClassID.Fallback]
                  now := s.data.animationTime
                  defaultTransition :=
                    { duration := s.data.defaultTransitionDuration
                      delay := s.data.defaultTransitionDelay } } }) ∧
      (Style.cascade lookup (recordCascade layerCascade) (w, []) s).2
        = (Style.cascade lookup layerCascade w s).2 := by
  refine ⟨cascadeClasses_eq _ _, ?_, ?_, ?_, ?_⟩
  · rw [cascadeClasses_eq]; simp
  · rw [cascadeClasses_eq]; simp
  · simp only [Style.cascade]
    rw [(cascadeLayers_record layerCascade _ s.layers w []).1, cascadeClasses_eq]
    simp
  · simp only [Style.cascade]
    rw [(cascadeLayers_record layerCascade _ s.layers w []).2.2]

/-! ## Recalculate: theorems -/

theorem getSource_eq_some_iff (sources : List Source) (id : String) (j : Nat) :
    getSource sources id = some j ↔
      (sources.map Source.source_id)[j]? = some id ∧
        ∀ k, k < j → (sources.map Source.source_id)[k]? ≠ some id := by
  induction sources generalizing j with
  | nil => simp [getSource]
  | cons a rest ih =>
    by_cases ha : a.source_id = id
    · have hb : (a.source_id == id) = true := by simp [ha]
      simp only [getSource, hb, if_true]
      constructor
      · intro h
        have hj : j = 0 := by simpa using h.symm
        subst hj
        simp [ha]
      · intro h
        cases j with
        | zero => rfl
        | succ j =>
          exfalso
          exact h.2 0 (Nat.succ_pos j) (by simp [ha])
    · have hb : (a.source_id == id) = false := beq_eq_false_iff_ne.mpr ha
      simp only [getSource, hb]
      cases j with
      | zero =>
        simp [ha]
      | succ j =>
        simp only [Bool.false_eq_true, if_false, Option.map_eq_some', Nat.succ.injEq,
          exists_eq_right, List.map_cons, List.getElem?_cons_succ]
        rw [ih j]
        constructor
        · rintro ⟨h1, h2⟩
          refine ⟨h1, ?_⟩
          intro k hk
          cases k with
          | zero => simp [ha]
          | succ k =>
            simp only [List.getElem?_cons_succ]
            exact h2 k (by omega)
        · rintro ⟨h1, h2⟩
          refine ⟨h1, ?_⟩
          intro k hk
          have := h2 (k + 1) (by omega)
          simpa using this

theorem getSource_congr (sources1 sources2 : List Source) (id : String)
    (h : sources1.map Source.source_id = sources2.map Source.source_id) :
    getSource sources1 id = getSource sources2 id := by
  cases hj : getSource sources2 id with
  | some j =>
    rw [getSource_eq_some_iff] at hj ⊢
    rw [h]
    exact hj
  | none =>
    cases hi : getSource sources1 id with
    | none => rfl
    | some i =>
      rw [getSource_eq_some_iff, h, ← getSource_eq_some_iff] at hi
      rw [hi] at hj
      cases hj

theorem enableAt_ids (sources : List Source) (i : Nat) :
    (enableAt sources i).map Source.source_id = sources.map Source.source_id := by
  induction sources generalizing i with
  | nil => simp [enableAt]
  | cons a rest ih =>
    cases i with
    | zero => simp [enableAt]
    | succ i => simp [enableAt, ih]

theorem enableAt_enabled (sources : List Source) (i j : Nat) :
    ((enableAt sources i)[j]?).map Source.enabled
      = (sources[j]?).map (fun x => x.enabled || decide (i = j)) := by
  induction sources generalizing i j with
  | nil => simp [enableAt]
  | cons a rest ih =>
    cases i with
    | zero =>
      cases j with
      | zero => simp [enableAt]
      | succ j => simp [enableAt]
    | succ i =>
      cases j with
      | zero => simp [enableAt]
      | succ j =>
        simp only [enableAt, List.getElem?_cons_succ]
        rw [ih]
        simp

theorem recalculateLayers_layers
    (f : StyleCalculationParameters → StyleLayer → Nat × Bool) (p : StyleCalculationParameters)
    (layers : List StyleLayer) (sources : List Source) (pending : Bool) :
    (recalculateLayers f p layers sources pending).1
      = layers.map (fun l => { l with props := (f p l).1 }) := by
  induction layers generalizing sources pending with
  | nil => simp [recalculateLayers]
  | cons a rest ih => simp [recalculateLayers, ih]

theorem recalculateLayers_ids
    (f : StyleCalculationParameters → StyleLayer → Nat × Bool) (p : StyleCalculationParameters)
    (layers : List StyleLayer) (sources : List Source) (pending : Bool) :
    (recalculateLayers f p layers sources pending).2.1.map Source.source_id
      = sources.map Source.source_id := by
  induction layers generalizing sources pending with
  | nil => simp [recalculateLayers]
  | cons a rest ih =>
    simp only [recalculateLayers]
    rw [ih]
    cases getSource sources a.source with
    | none => rfl
    | some i => exact enableAt_ids sources i

theorem recalculateLayers_enabled
    (f : StyleCalculationParameters → StyleLayer → Nat × Bool) (p : StyleCalculationParameters)
    (layers : List StyleLayer) (sources : List Source) (pending : Bool) (j : Nat) :
    ((recalculateLayers f p layers sources pending).2.1[j]?).map Source.enabled
      = (sources[j]?).map (fun x =>
          x.enabled || layers.any (fun l => decide (getSource sources l.source = some j))) := by
  induction layers generalizing sources pending with
  | nil => simp [recalculateLayers]
  | cons a rest ih =>
    simp only [recalculateLayers]
    rw [ih]
    cases hg : getSource sources a.source with
    | none =>
      simp [hg]
    | some i =>
      simp only
      have hc : ∀ id, getSource (enableAt sources i) id = getSource sources id :=
        fun id => getSource_congr _ _ id (enableAt_ids sources i)
      simp only [hc]
      have he := enableAt_enabled sources i j
      cases hs : sources[j]? with
      | none =>
        rw [hs] at he
        simp only [Option.map_none', Option.map_eq_none'] at he
        rw [he]
        simp
      | some x =>
        rw [hs] at he
        simp only [Option.map_some', Option.map_eq_some'] at he
        obtain ⟨y, hy, hye⟩ := he
        rw [hy]
        simp only [Option.map_some', hye, List.any_cons, Option.some.injEq, hg]
        rw [Bool.or_assoc]

theorem recalculate_sources_ids (zoomUpdate : ZoomHistory → Zoom → TimePoint → ZoomHistory)
    (f : StyleCalculationParameters → StyleLayer → Nat × Bool) (s : Style) (z : Zoom) :
    (Style.recalculate zoomUpdate f s z).sources.map Source.source_id
      = s.sources.map Source.source_id := by
  simp only [Style.recalculate]
  rw [recalculateLayers_ids]
  simp [Function.comp_def]

theorem recalculate_layers_eq (zoomUpdate : ZoomHistory → Zoom → TimePoint → ZoomHistory)
    (f : StyleCalculationParameters → StyleLayer → Nat × Bool) (s : Style) (z : Zoom) :
    ∃ p, (Style.recalculate zoomUpdate f s z).layers
      = s.layers.map (fun l => { l with props := (f p l).1 }) := by
  simp only [Style.recalculate]
  exact ⟨_, recalculateLayers_layers f _ s.layers _ _⟩

theorem recalculate_enabled_getSource
    (zoomUpdate : ZoomHistory → Zoom → TimePoint → ZoomHistory)
    (f : StyleCalculationParameters → StyleLayer → Nat × Bool) (s : Style) (z : Zoom)
    (j : Nat) (src : Source) (h : (Style.recalculate zoomUpdate f s z).sources[j]? = some src) :
    src.enabled = true ↔ ∃ l ∈ s.layers, getSource s.sources l.source = some j := by
  have hlen : j < s.sources.length := by
    have h1 : j < (Style.recalculate zoomUpdate f s z).sources.length := by
      rcases List.getElem?_eq_some.mp h with ⟨hj, _⟩
      exact hj
    have h2 := congrArg List.length (recalculate_sources_ids zoomUpdate f s z)
    simp only [List.length_map] at h2
    omega
  have hc : ∀ id, getSource (s.sources.map (fun source => { source with enabled := false })) id
      = getSource s.sources id :=
    fun id => getSource_congr _ _ id (by simp [Function.comp_def])
  have he := recalculateLayers_enabled f
    { z := z, now := s.data.animationTime,
      zoomHistory := zoomUpdate s.zoomHistory z s.data.animationTime,
      defaultFadeDuration := s.data.defaultFadeDuration }
    s.layers (s.sources.map (fun source => { source with enabled := false }))
    s.hasPendingTransitions j
  simp only [Style.recalculate] at h
  rw [h] at he
  simp only [hc, List.getElem?_map, List.getElem?_eq_getElem hlen, Option.map_some',
    Bool.false_or, Option.some.injEq] at he
  rw [he]
  simp [List.any_eq_true]

theorem recalculate_no_layers (zoomUpdate : ZoomHistory → Zoom → TimePoint → ZoomHistory)
    (f : StyleCalculationParameters → StyleLayer → Nat × Bool) (r : Style) (z : Zoom)
    (h : r.layers = []) :
    (Style.recalculate zoomUpdate f r z).sources.map Source.enabled
      = r.sources.map (fun _ => false) := by
  simp [Style.recalculate, h, recalculateLayers, Function.comp_def]

theorem removeLayer_single (r : Style) (l : StyleLayer) (h : r.layers = [l]) :
    (r.removeLayer l.id).2.layers = [] ∧ (r.removeLayer l.id).2.sources = r.sources := by
  simp [Style.removeLayer, h, findLayer_cons]

/-- C5 (as stated, refuted): two owned sources carry the id "s1" and one layer
references "s1"; after `recalculate` the second source is not enabled although a
layer references its id. -/
theorem recalculate_duplicate_source_id :
    (Style.recalculate (fun h _ _ => h) (fun _ l => (l.props, false))
        { Style.init ⟨[], 0, 0, 0, 0⟩ with
          sources := [⟨"s1", false, true, true, true, 0⟩, ⟨"s1", false, true, true, true, 1⟩]
          layers := [⟨"l1", "s1", 0⟩] } 10).sources.map Source.enabled = [true, false] := by
  decide

/-- C5 (amended): after `recalculate(z)`, an owned source is enabled if and only if some
layer in the layer sequence references its id and no earlier owned source has the
same id (`getSource` finds the first); the flag's value before the call does not
matter.  In particular, when the source ids are pairwise distinct, every owned source
is enabled if and only if some layer references its id; and with one source and one
layer referencing it, the source is enabled after `recalculate`, and disabled after
the layer is removed and `recalculate` is called again. -/
theorem recalculate_enabled (zoomUpdate : ZoomHistory → Zoom → TimePoint → ZoomHistory)
    (f : StyleCalculationParameters → StyleLayer → Nat × Bool) (s : Style) (z : Zoom) :
    (Style.recalculate zoomUpdate f s z).sources.map Source.source_id
        = s.sources.map Source.source_id ∧
      (Style.recalculate zoomUpdate f s z).layers.map (fun l => (l.id, l.source))
        = s.layers.map (fun l => (l.id, l.source)) ∧
      (∀ (j : Nat) (src : Source), (Style.recalculate zoomUpdate f s z).sources[j]? = some src →
        (src.enabled = true ↔
          (∃ l ∈ (Style.recalculate zoomUpdate f s z).layers, l.source = src.source_id) ∧
            ∀ (k : Nat) (y : Source), k < j → (Style.recalculate zoomUpdate f s z).sources[k]? = some y →
              y.source_id ≠ src.source_id)) ∧
      ((s.sources.map Source.source_id).Nodup →
        ∀ src ∈ (Style.recalculate zoomUpdate f s z).sources,
          (src.enabled = true ↔
            ∃ l ∈ (Style.recalculate zoomUpdate f s z).layers, l.source = src.source_id)) ∧
      (∀ src layer, s.sources = [src] → s.layers = [layer] → layer.source = src.source_id →
        (Style.recalculate zoomUpdate f s z).sources.map Source.enabled = [true] ∧
          (Style.recalculate zoomUpdate f
              ((Style.recalculate zoomUpdate f s z).removeLayer layer.id).2 z).sources.map
            Source.enabled = [false]) := by
  have hids := recalculate_sources_ids zoomUpdate f s z
  obtain ⟨p, hlay⟩ := recalculate_layers_eq zoomUpdate f s z
  have hrefs : ∀ X, (∃ l ∈ (Style.recalculate zoomUpdate f s z).layers, l.source = X) ↔
      ∃ l ∈ s.layers, l.source = X := by
    intro X
    rw [hlay]
    simp
  have hmain : ∀ (j : Nat) (src : Source), (Style.recalculate zoomUpdate f s z).sources[j]? = some src →
      (src.enabled = true ↔
        (∃ l ∈ (Style.recalculate zoomUpdate f s z).layers, l.source = src.source_id) ∧
          ∀ (k : Nat) (y : Source), k < j → (Style.recalculate zoomUpdate f s z).sources[k]? = some y →
            y.source_id ≠ src.source_id) := by
    intro j src hj
    rw [recalculate_enabled_getSource zoomUpdate f s z j src hj, hrefs]
    have hidj : (s.sources.map Source.source_id)[j]? = some src.source_id := by
      rw [← hids, List.getElem?_map, hj]
      rfl
    have hidk : ∀ (k : Nat) (y : Source), (Style.recalculate zoomUpdate f s z).sources[k]? = some y →
        (s.sources.map Source.source_id)[k]? = some y.source_id := by
      intro k y hk
      rw [← hids, List.getElem?_map, hk]
      rfl
    constructor
    · rintro ⟨l, hl, hg⟩
      rw [getSource_eq_some_iff, hidj] at hg
      have hls : l.source = src.source_id := (Option.some.inj hg.1).symm
      refine ⟨⟨l, hl, hls⟩, ?_⟩
      intro k y hk hy hyid
      apply hg.2 k hk
      rw [hidk k y hy, hyid, hls]
    · rintro ⟨⟨l, hl, hls⟩, hfirst⟩
      refine ⟨l, hl, ?_⟩
      rw [getSource_eq_some_iff, hidj, hls]
      refine ⟨rfl, ?_⟩
      intro k hk hkid
      have hklen : k < (Style.recalculate zoomUpdate f s z).sources.length := by
        have h1 : j < (Style.recalculate zoomUpdate f s z).sources.length := by
          rcases List.getElem?_eq_some.mp hj with ⟨hj2, _⟩
          exact hj2
        omega
      have hy := List.getElem?_eq_getElem hklen
      have := hidk k _ hy
      rw [hkid] at this
      exact hfirst k _ hk hy (Option.some.inj this).symm
  refine ⟨hids, ?_, hmain, ?_, ?_⟩
  · rw [hlay]
    simp [Function.comp_def]
  · intro hnd src hsrc
    obtain ⟨j, hjlt, hj⟩ := List.getElem_of_mem hsrc
    have hj2 : (Style.recalculate zoomUpdate f s z).sources[j]? = some src := by
      rw [List.getElem?_eq_getElem hjlt, hj]
    rw [hmain j src hj2]
    constructor
    · exact fun h => h.1
    · intro h
      refine ⟨h, ?_⟩
      intro k y hk hy hyid
      rw [← hids] at hnd
      have hklt : k < (Style.recalculate zoomUpdate f s z).sources.length := by omega
      have e1 : ((Style.recalculate zoomUpdate f s z).sources.map Source.source_id)[k]?
          = some y.source_id := by
        rw [List.getElem?_map, hy]; rfl
      have e2 : ((Style.recalculate zoomUpdate f s z).sources.map Source.source_id)[j]?
          = some src.source_id := by
        rw [List.getElem?_map, hj2]; rfl
      rw [hyid, ← e2] at e1
      have hjlt2 : j < ((Style.recalculate zoomUpdate f s z).sources.map
          Source.source_id).length := by
        simpa using hjlt
      exact List.nodup_iff_getElem?_ne_getElem?.mp hnd k j hk hjlt2 e1
  · intro src layer hs hl hls
    constructor
    · simp [Style.recalculate, hs, hl, recalculateLayers, getSource, hls, enableAt]
    · have hl2 : (Style.recalculate zoomUpdate f s z).layers
          = [{ layer with props := (f p layer).1 }] := by
        rw [hlay, hl]
        rfl
      have hs2 : ∃ src2, (Style.recalculate zoomUpdate f s z).sources = [src2] := by
        have := hids
        rw [hs] at this
        cases hsrc : (Style.recalculate zoomUpdate f s z).sources with
        | nil => rw [hsrc] at this; simp at this
        | cons a rest =>
          rw [hsrc] at this
          cases rest with
          | nil => exact ⟨a, rfl⟩
          | cons b rest2 => simp at this
      obtain ⟨src2, hs2⟩ := hs2
      obtain ⟨h1, h2⟩ := removeLayer_single (Style.recalculate zoomUpdate f s z) _ hl2
      rw [recalculate_no_layers zoomUpdate f _ z h1, h2, hs2]
      rfl

/-- Instance of `recalculate_enabled`: one source "s1" and one layer referencing it. -/
theorem recalculate_enabled_witness :
    (Style.recalculate (fun h _ _ => h) (fun _ l => (l.props, false))
        { Style.init ⟨[], 0, 0, 0, 0⟩ with
          sources := [⟨"s1", false, true, true, true, 0⟩]
          layers := [⟨"l1", "s1", 0⟩] } 10).sources.map Source.enabled = [true] ∧
      (Style.recalculate (fun h _ _ => h) (fun _ l => (l.props, false))
          ((Style.recalculate (fun h _ _ => h) (fun _ l => (l.props, false))
              { Style.init ⟨[], 0, 0, 0, 0⟩ with
                sources := [⟨"s1", false, true, true, true, 0⟩]
                layers := [⟨"l1", "s1", 0⟩] } 10).removeLayer "l1").2 10).sources.map
        Source.enabled = [false] :=
  (recalculate_enabled (fun h _ _ => h) (fun _ l => (l.props, false))
      { Style.init ⟨[], 0, 0, 0, 0⟩ with
        sources := [⟨"s1", false, true, true, true, 0⟩]
        layers := [⟨"l1", "s1", 0⟩] } 10).2.2.2.2
    ⟨"s1", false, true, true, true, 0⟩ ⟨"l1", "s1", 0⟩ rfl rfl rfl

/-! ## Loading a document: theorems -/

theorem foldl_addSource (sources : List Source) (s : Style) :
    sources.foldl Style.addSource s
      = { s with sources := s.sources ++ sources.map (fun src => src.setObserver.load) } := by
  induction sources generalizing s with
  | nil => simp
  | cons a rest ih =>
    simp only [List.foldl_cons, ih]
    simp [Style.addSource]

theorem foldl_addLayer (layers : List StyleLayer) (s : Style) :
    layers.foldl Style.addLayer s = { s with layers := s.layers ++ layers } := by
  induction layers generalizing s with
  | nil => simp
  | cons a rest ih =>
    simp only [List.foldl_cons, ih]
    simp [Style.addLayer]

/-- C6 (as stated, refuted): a style that holds the layer "old" loads a well-formed
document with the single layer "new"; afterwards the layer "old" is still present. -/
theorem setJSON_keeps_prior_layers :
    (Style.setJSON
        (fun _ => some
          { sources := [], layers := [⟨"new", "s", 0⟩], spriteURL := "", glyphURL := "" })
        { Style.init ⟨[], 0, 0, 0, 0⟩ with layers := [⟨"old", "s", 0⟩] } "\x7b\x7d").layers
      = [⟨"old", "s", 0⟩, ⟨"new", "s", 0⟩] := by
  decide

/-- C6 (amended): `setJSON` on a well-formed document puts the parsed sources, each with
the style attached as observer and its load started, after the sources already owned,
and the parsed layers after the layers already present, both in document order; it
sets the glyph and sprite URLs and marks the style loaded.  On a style without sources
and layers the owned sources and layers are then exactly those of the document. -/
theorem setJSON_wellformed (parse : String → Option StyleParser) (s : Style) (json : String)
    (parser : StyleParser) (h : parse json = some parser) :
    (Style.setJSON parse s json).sources
        = s.sources ++ parser.sources.map (fun src => src.setObserver.load) ∧
      (Style.setJSON parse s json).layers = s.layers ++ parser.layers ∧
      (Style.setJSON parse s json).glyphURL = parser.glyphURL ∧
      (Style.setJSON parse s json).spriteURL = parser.spriteURL ∧
      (Style.setJSON parse s json).loaded = true ∧
      (s.sources = [] → s.layers = [] →
        (Style.setJSON parse s json).sources
            = parser.sources.map (fun src => src.setObserver.load) ∧
          (Style.setJSON parse s json).sources.map Source.source_id
            = parser.sources.map Source.source_id ∧
          (Style.setJSON parse s json).layers = parser.layers) := by
  have hs : (Style.setJSON parse s json).sources
      = s.sources ++ parser.sources.map (fun src => src.setObserver.load) := by
    simp [Style.setJSON, h, foldl_addSource, foldl_addLayer]
  have hl : (Style.setJSON parse s json).layers = s.layers ++ parser.layers := by
    simp [Style.setJSON, h, foldl_addSource, foldl_addLayer]
  refine ⟨hs, hl, ?_, ?_, ?_, ?_⟩
  · simp [Style.setJSON, h]
  · simp [Style.setJSON, h]
  · simp [Style.setJSON, h]
  · intro hs0 hl0
    rw [hs, hl, hs0, hl0]
    simp [Function.comp_def, Source.setObserver, Source.load]

/-- Instance of `setJSON_wellformed`: a fresh style loads a document with one source and
one layer. -/
theorem setJSON_wellformed_witness :
    (Style.setJSON
        (fun j => if j = "\x7b\x7d" then some
          { sources := [⟨"s1", false, false, false, false, 0⟩], layers := [⟨"l1", "s1", 0⟩],
            spriteURL := "sprite", glyphURL := "glyphs" } else none)
        (Style.init ⟨[], 0, 0, 0, 0⟩) "\x7b\x7d").sources = [⟨"s1", false, true, true, false, 0⟩] ∧
      (Style.setJSON
        (fun j => if j = "\x7b\x7d" then some
          { sources := [⟨"s1", false, false, false, false, 0⟩], layers := [⟨"l1", "s1", 0⟩],
            spriteURL := "sprite", glyphURL := "glyphs" } else none)
        (Style.init ⟨[], 0, 0, 0, 0⟩) "\x7b\x7d").layers = [⟨"l1", "s1", 0⟩] :=
  ⟨((setJSON_wellformed
      (fun j => if j = "\x7b\x7d" then some
        { sources := [⟨"s1", false, false, false, false, 0⟩], layers := [⟨"l1", "s1", 0⟩],
          spriteURL := "sprite", glyphURL := "glyphs" } else none)
      (Style.init ⟨[], 0, 0, 0, 0⟩) "\x7b\x7d"
      { sources := [⟨"s1", false, false, false, false, 0⟩], layers := [⟨"l1", "s1", 0⟩],
        spriteURL := "sprite", glyphURL := "glyphs" } (by simp)).2.2.2.2.2 rfl rfl).1,
   ((setJSON_wellformed
      (fun j => if j = "\x7b\x7d" then some
        { sources := [⟨"s1", false, false, false, false, 0⟩], layers := [⟨"l1", "s1", 0⟩],
          spriteURL := "sprite", glyphURL := "glyphs" } else none)
      (Style.init ⟨[], 0, 0, 0, 0⟩) "\x7b\x7d"
      { sources := [⟨"s1", false, false, false, false, 0⟩], layers := [⟨"l1", "s1", 0⟩],
        spriteURL := "sprite", glyphURL := "glyphs" } (by simp)).2.2.2.2.2 rfl rfl).2.2⟩

theorem setJSON_of_parse_error (parse : String → Option StyleParser) (s : Style)
    (json : String) (h : parse json = none) : Style.setJSON parse s json = s := by
  simp [Style.setJSON, h]

theorem foldl_setJSON_of_parse_error (parse : String → Option StyleParser)
    (docs : List String) (hdocs : ∀ d ∈ docs, parse d = none) (s : Style) :
    docs.foldl (Style.setJSON parse) s = s := by
  induction docs generalizing s with
  | nil => rfl
  | cons d rest ih =>
    simp only [List.foldl_cons]
    rw [setJSON_of_parse_error parse s d (hdocs d (List.mem_cons_self _ _))]
    exact ih (fun e he => hdocs e (List.mem_cons_of_mem _ he)) s

/-- C7: `setJSON` on a document that is not well-formed JSON leaves the whole style as
it was (sources, layers, loaded flag, glyph and sprite URLs included).  Hence a style
on which every `setJSON` so far has failed is still in its initial state after the
failed call: `isLoaded()` is false and no sources or layers are attached. -/
theorem setJSON_malformed (parse : String → Option StyleParser) (s : Style) (json : String)
    (h : parse json = none) :
    Style.setJSON parse s json = s ∧
      (Style.setJSON parse s json).sources = s.sources ∧
      (Style.setJSON parse s json).layers = s.layers ∧
      (Style.setJSON parse s json).loaded = s.loaded ∧
      (Style.setJSON parse s json).glyphURL = s.glyphURL ∧
      (Style.setJSON parse s json).spriteURL = s.spriteURL ∧
      (s.loaded = false → (Style.setJSON parse s json).isLoaded = false) ∧
      (∀ (data : MapData) (earlier : List String), (∀ d ∈ earlier, parse d = none) →
        (Style.setJSON parse (earlier.foldl (Style.setJSON parse) (Style.init data))
            json).isLoaded = false ∧
          (Style.setJSON parse (earlier.foldl (Style.setJSON parse) (Style.init data))
            json).sources = [] ∧
          (Style.setJSON parse (earlier.foldl (Style.setJSON parse) (Style.init data))
            json).layers = []) := by
  have he := setJSON_of_parse_error parse s json h
  refine ⟨he, by rw [he], by rw [he], by rw [he], by rw [he], by rw [he], ?_, ?_⟩
  · intro hl
    rw [he]
    simp [Style.isLoaded, hl]
  · intro data earlier hearlier
    rw [foldl_setJSON_of_parse_error parse earlier hearlier,
      setJSON_of_parse_error parse _ json h]
    simp [Style.init, Style.isLoaded]

/-- Instance of `setJSON_malformed`: a style holding one layer is handed a truncated
document. -/
theorem setJSON_malformed_witness :
    Style.setJSON
        (fun j => if j = "\x7b\x7d" then some
          { sources := [], layers := [], spriteURL := "", glyphURL := "" } else none)
        { Style.init ⟨[], 0, 0, 0, 0⟩ with layers := [⟨"old", "s", 0⟩] } "\x7b\x22layers\x22:"
      = { Style.init ⟨[], 0, 0, 0, 0⟩ with layers := [⟨"old", "s", 0⟩] } :=
  (setJSON_malformed
    (fun j => if j = "\x7b\x7d" then some
      { sources := [], layers := [], spriteURL := "", glyphURL := "" } else none)
    { Style.init ⟨[], 0, 0, 0, 0⟩ with layers := [⟨"old", "s", 0⟩] } "\x7b\x22layers\x22:"
    (by decide)).1

/-! ## Observer callbacks: theorems -/

/-- C8 (as stated, refuted): on a style whose flag is clear, `onSourceLoaded` and
`onTileLoaded(false)` leave the flag clear. -/
theorem success_callbacks_flag_clear :
    (Style.init ⟨[], 0, 0, 0, 0⟩).onSourceLoaded.shouldReparsePartialTiles = false ∧
      ((Style.init ⟨[], 0, 0, 0, 0⟩).onTileLoaded false).shouldReparsePartialTiles = false := by
  decide

/-- C8 (amended): `onGlyphRangeLoaded`, `onSpriteLoaded` and `onTileLoaded(true)` set
the "needs reparse" flag; `onSourceLoaded` and `onTileLoaded(false)` leave it as it
was.  Each of the callbacks delivers exactly one `onTileDataChanged` event when an
observer is registered and none otherwise. -/
theorem success_callbacks (s : Style) :
    s.onGlyphRangeLoaded.shouldReparsePartialTiles = true ∧
      s.onSpriteLoaded.shouldReparsePartialTiles = true ∧
      (s.onTileLoaded true).shouldReparsePartialTiles = true ∧
      (s.onTileLoaded false).shouldReparsePartialTiles = s.shouldReparsePartialTiles ∧
      s.onSourceLoaded.shouldReparsePartialTiles = s.shouldReparsePartialTiles ∧
      s.onGlyphRangeLoaded.delivered
        = s.delivered ++ (if s.hasObserver then [Event.tileDataChanged] else []) ∧
      s.onSpriteLoaded.delivered
        = s.delivered ++ (if s.hasObserver then [Event.tileDataChanged] else []) ∧
      (∀ isNewTile, (s.onTileLoaded isNewTile).delivered
        = s.delivered ++ (if s.hasObserver then [Event.tileDataChanged] else [])) ∧
      s.onSourceLoaded.delivered
        = s.delivered ++ (if s.hasObserver then [Event.tileDataChanged] else []) := by
  cases ho : s.hasObserver <;>
    simp [Style.onGlyphRangeLoaded, Style.onSpriteLoaded, Style.onTileLoaded,
      Style.onSourceLoaded, Style.emitTileDataChanged, ho]

/-! ## Update: theorems -/

theorem updateSources_record {W : Type} (f : W → Source → Bool → W × Source × Bool)
    (flag : Bool) (sources : List Source) (w : W) (log : List UpdateCall) (all : Bool) :
    ∃ calls : List UpdateCall,
      (updateSources (recordUpdate f) flag (w, log) sources all).1.2 = log ++ calls ∧
        calls.map UpdateCall.source = sources ∧
        (∀ c ∈ calls, c.flag = flag) ∧
        (updateSources (recordUpdate f) flag (w, log) sources all).2.2
          = (all && calls.all UpdateCall.result) ∧
        (updateSources (recordUpdate f) flag (w, log) sources all).1.1
          = (updateSources f flag w sources all).1 ∧
        (updateSources (recordUpdate f) flag (w, log) sources all).2
          = (updateSources f flag w sources all).2 := by
  induction sources generalizing w log all with
  | nil => exact ⟨[], by simp [updateSources]⟩
  | cons a rest ih =>
    obtain ⟨calls, h1, h2, h3, h4, h5, h6⟩ :=
      ih (f w a flag).1 (log ++ [{ source := a, flag := flag, result := (f w a flag).2.2 }])
        (if !(f w a flag).2.2 then false else all)
    refine ⟨{ source := a, flag := flag, result := (f w a flag).2.2 } :: calls, ?_⟩
    simp only [updateSources, recordUpdate]
    refine ⟨?_, ?_, ?_, ?_, ?_, ?_⟩
    · rw [h1]; simp
    · simp [h2]
    · intro c hc
      rcases List.mem_cons.mp hc with rfl | hc2
      · rfl
      · exact h3 c hc2
    · rw [h4]
      cases (f w a flag).2.2 <;> simp
    · rw [h5]
    · rw [h6]

/-- C10: `update` calls `Source::update` once on each owned source, in source order, each
time passing the value the "needs reparse" flag had on entry.  Afterwards the flag is
false if every call returned true and otherwise has its value on entry; so `update`
never sets the flag, and never clears it while some source returns false.  Recording
the calls does not change the outcome. -/
theorem update_reparse_flag {W : Type} (sourceUpdate : W → Source → Bool → W × Source × Bool)
    (w : W) (s : Style) :
    (Style.update (recordUpdate sourceUpdate) (w, []) s).1.2.map UpdateCall.source
        = s.sources ∧
      (∀ c ∈ (Style.update (recordUpdate sourceUpdate) (w, []) s).1.2,
        c.flag = s.shouldReparsePartialTiles) ∧
      (Style.update sourceUpdate w s).2.shouldReparsePartialTiles
        = (if (Style.update (recordUpdate sourceUpdate) (w, []) s).1.2.all UpdateCall.result
            then false else s.shouldReparsePartialTiles) ∧
      (s.shouldReparsePartialTiles = false →
        (Style.update sourceUpdate w s).2.shouldReparsePartialTiles = false) ∧
      (s.shouldReparsePartialTiles = true →
        (∃ c ∈ (Style.update (recordUpdate sourceUpdate) (w, []) s).1.2, c.result = false) →
        (Style.update sourceUpdate w s).2.shouldReparsePartialTiles = true) ∧
      (Style.update (recordUpdate sourceUpdate) (w, []) s).2
        = (Style.update sourceUpdate w s).2 ∧
      (Style.update (recordUpdate sourceUpdate) (w, []) s).1.1
        = (Style.update sourceUpdate w s).1 := by
  obtain ⟨calls, h1, h2, h3, h4, h5, h6⟩ :=
    updateSources_record sourceUpdate s.shouldReparsePartialTiles s.sources w [] true
  simp only [List.nil_append, Bool.true_and] at h1 h4
  have hflag : (Style.update sourceUpdate w s).2.shouldReparsePartialTiles
      = (if calls.all UpdateCall.result then false else s.shouldReparsePartialTiles) := by
    simp only [Style.update]
    rw [← h6, h4]
  simp only [Style.update, h1, h6, h5]
  simp only [Style.update] at hflag
  refine ⟨h2, h3, hflag, ?_, ?_, trivial, trivial⟩
  · intro h0
    rw [hflag, h0]
    simp
  · rintro h0 ⟨c, hc, hcr⟩
    rw [hflag, h0]
    have : calls.all UpdateCall.result = false := by
      rw [List.all_eq_false]
      exact ⟨c, hc, by simp [hcr]⟩
    simp [this]

/-- Instance of `update_reparse_flag`: two sources, the second of which reports that it
has not fully updated, with a reparse pending. -/
theorem update_reparse_flag_witness :
    (Style.update (fun (w : Nat) src flag => (w + 1, src, src.loaded && flag)) 0
        { Style.init ⟨[], 0, 0, 0, 0⟩ with
          sources := [⟨"s1", true, true, true, true, 0⟩, ⟨"s2", true, true, true, false, 0⟩]
          shouldReparsePartialTiles := true }).2.shouldReparsePartialTiles = true :=
  (update_reparse_flag (fun (w : Nat) src flag => (w + 1, src, src.loaded && flag)) 0
      { Style.init ⟨[], 0, 0, 0, 0⟩ with
        sources := [⟨"s1", true, true, true, true, 0⟩, ⟨"s2", true, true, true, false, 0⟩]
        shouldReparsePartialTiles := true }).2.2.2.2.1 rfl
    ⟨⟨⟨"s2", true, true, true, false, 0⟩, true, false⟩, by decide, rfl⟩

/-! ## PNG premultiplication: theorems -/

theorem roundHalfEven_bounds (n d : Nat) (hd : 0 < d) :
    2 * (roundHalfEven n d * d) ≤ 2 * n + d ∧ 2 * n ≤ 2 * (roundHalfEven n d * d) + d := by
  have hdiv : d * (n / d) + n % d = n := Nat.div_add_mod n d
  have hmod : n % d < d := Nat.mod_lt n hd
  have e1 : (n / d) * d = d * (n / d) := Nat.mul_comm _ _
  have e2 : (n / d + 1) * d = d * (n / d) + d := by ring
  unfold roundHalfEven
  simp only
  split
  · rw [e1]; omega
  · split
    · rw [e2]; omega
    · split
      · rw [e1]; omega
      · rw [e2]; omega

theorem normShiftFrom_spec (n d fuel start : Nat) :
    2 ^ 23 * d ≤ n * 2 ^ normShiftFrom n d fuel start ∨
      normShiftFrom n d fuel start = start + fuel := by
  induction fuel generalizing start with
  | zero => right; simp [normShiftFrom]
  | succ fuel ih =>
    unfold normShiftFrom
    split
    · left; assumption
    · rcases ih (start + 1) with h | h
      · left; exact h
      · right; omega

theorem normShift_ge_sixteen (n d : Nat) (h : n < 256 * d) :
    16 ≤ normShiftFrom n d 149 0 := by
  rcases normShiftFrom_spec n d 149 0 with h1 | h1
  · by_contra hlt
    have hs : normShiftFrom n d 149 0 ≤ 15 := by omega
    have hp : 2 ^ normShiftFrom n d 149 0 ≤ 2 ^ 15 := Nat.pow_le_pow_right (by norm_num) hs
    have h2 : n * 2 ^ normShiftFrom n d 149 0 ≤ n * 2 ^ 15 := Nat.mul_le_mul_left n hp
    have h3 : n * 2 ^ 15 < 256 * d * 2 ^ 15 := Nat.mul_lt_mul_of_pos_right h (by norm_num)
    have h4 : 256 * d * 2 ^ 15 = 2 ^ 23 * d := by ring
    omega
  · omega

theorem scaleByte_core (c a m s : Nat) (hc : c < 256) (ha : a < 256) (hs : 23 ≤ s)
    (h1 : a * 2 ^ s ≤ m * 255) (h2 : m * 255 ≤ a * 2 ^ s + 127) :
    scaleByte c { mant := m, scale := s } = c * a / 255 := by
  have hDpos : 0 < 2 ^ s := Nat.pow_pos (by norm_num)
  by_cases hn : c * m = 0
  · have hz : c * a / 255 = 0 := by
      rcases Nat.mul_eq_zero.mp hn with h0 | h0
      · simp [h0]
      · rw [h0] at h1
        have : a * 2 ^ s = 0 := by omega
        rcases Nat.mul_eq_zero.mp this with h3 | h3
        · simp [h3]
        · omega
    simp [scaleByte, roundFloat32, hn, hz]
  · have hD : 2 ^ 23 ≤ 2 ^ s := Nat.pow_le_pow_right (by norm_num) hs
    generalize hDdef : 2 ^ s = D at *
    obtain ⟨k, hk⟩ : ∃ k, k = c * a / 255 := ⟨_, rfl⟩
    have hca : c * a ≤ 255 * 255 := Nat.mul_le_mul (by omega) (by omega)
    have hk1 : k * 255 ≤ c * a := by omega
    have hk2 : c * a ≤ k * 255 + 254 := by omega
    have hk3 : k < 256 := by omega
    have f1 : c * (m * 255) ≤ c * (a * D + 127) := Nat.mul_le_mul_left c h2
    have f2 : c * a * D ≤ 255 * 255 * D := Nat.mul_le_mul_right D hca
    have hD1 : 8388608 ≤ D := le_trans (by norm_num) hD
    have hcm : c * m < 256 * D := by linarith
    have hsp : 16 ≤ normShiftFrom (c * m) D 149 0 := normShift_ge_sixteen _ _ hcm
    have hE : 2 ^ 16 ≤ 2 ^ normShiftFrom (c * m) D 149 0 :=
      Nat.pow_le_pow_right (by norm_num) hsp
    have hb := roundHalfEven_bounds (c * m * 2 ^ normShiftFrom (c * m) D 149 0) D hDpos
    simp only [scaleByte, roundFloat32, hn, if_false, hDdef]
    generalize 2 ^ normShiftFrom (c * m) D 149 0 = E at *
    generalize roundHalfEven (c * m * E) D = mp at *
    have hEpos : 0 < E := by omega
    have g2 : c * (a * D) ≤ c * (m * 255) := Nat.mul_le_mul_left c h1
    have g3 : k * 255 * D ≤ c * a * D := Nat.mul_le_mul_right D hk1
    have g4 : k * D ≤ c * m := by linarith
    have g5 : k * D * E ≤ c * m * E := Nat.mul_le_mul_right E g4
    have hlo : k * E ≤ mp := by
      by_contra hcon
      have g0 : mp + 1 ≤ k * E := by omega
      have g1 : (mp + 1) * D ≤ k * E * D := Nat.mul_le_mul_right D g0
      have g6 : 2 * (c * m * E) ≤ 2 * (mp * D) + D := hb.2
      have g7 : (mp + 1) * D = mp * D + D := by ring
      have g8 : k * D * E = k * E * D := by ring
      linarith
    have hhi : mp < (k + 1) * E := by
      by_contra hcon
      have u0 : (k + 1) * E ≤ mp := by omega
      have u1 : (k + 1) * E * D ≤ mp * D := Nat.mul_le_mul_right D u0
      have u2 : c * (m * 255) * E ≤ c * (a * D + 127) * E := Nat.mul_le_mul_right E f1
      have u3 : c * a * (D * E) ≤ (k * 255 + 254) * (D * E) := Nat.mul_le_mul_right _ hk2
      have u4 : c * E ≤ 255 * E := Nat.mul_le_mul_right E (by omega)
      have hD2 : 8388608 ≤ D := le_trans (by norm_num) hD
      have hE2 : 65536 ≤ E := le_trans (by norm_num) hE
      have u5 : 8388608 * E ≤ D * E := Nat.mul_le_mul_right E hD2
      have u6 : 65536 * D ≤ E * D := Nat.mul_le_mul_right D hE2
      have u7 : 2 * (mp * D) ≤ 2 * (c * m * E) + D := hb.1
      have v1 : 510 * ((k + 1) * E * D) ≤ 510 * (mp * D) := Nat.mul_le_mul_left _ u1
      have v2 : 510 * (mp * D) ≤ 510 * (c * m * E) + 255 * D := by linarith
      have v3 : 510 * (c * m * E) ≤ 2 * (c * a * (D * E)) + 254 * (c * E) := by linarith
      have v4 : 2 * (c * a * (D * E)) ≤ 510 * (k * E * D) + 508 * (D * E) := by linarith
      have v5 : 510 * ((k + 1) * E * D) = 510 * (k * E * D) + 510 * (D * E) := by ring
      linarith
    rw [Nat.div_eq_of_lt_le hlo hhi, hk]
    omega

theorem alphaFraction_facts :
    ∀ a, a < 256 → 0 < a →
      23 ≤ (alphaFraction a).scale ∧
        a * 2 ^ (alphaFraction a).scale ≤ (alphaFraction a).mant * 255 ∧
        (alphaFraction a).mant * 255 ≤ a * 2 ^ (alphaFraction a).scale + 127 := by
  decide!

theorem scaleByte_exact (c a : Nat) (hc : c < 256) (ha : a < 256) :
    scaleByte c (alphaFraction a) = c * a / 255 := by
  rcases Nat.eq_zero_or_pos a with h0 | hpos
  · subst h0
    simp [scaleByte, alphaFraction, roundFloat32]
  · obtain ⟨hs, h1, h2⟩ := alphaFraction_facts a ha hpos
    exact scaleByte_core c a _ _ hc ha hs h1 h2

theorem set3_getElem? (l : List Nat) (b v0 v1 v2 i : Nat) (hb : b + 2 < l.length) :
    (((l.set b v0).set (b + 1) v1).set (b + 2) v2)[i]?
      = if i = b then some v0 else if i = b + 1 then some v1
        else if i = b + 2 then some v2 else l[i]? := by
  simp only [List.getElem?_set, List.length_set]
  split_ifs <;> first | rfl | omega

theorem getD_of_getElem? (l : List Nat) (i v : Nat) (h : l[i]? = some v) : l.getD i 0 = v := by
  simp [List.getD_eq_getElem?_getD, h]

theorem getD_lt_of_bytes (image : List Nat) (hbytes : ∀ b ∈ image, b < 256) (i : Nat) :
    image.getD i 0 < 256 := by
  rw [List.getD_eq_getElem?_getD]
  cases h : image[i]? with
  | none => simp
  | some v =>
    simp only [Option.getD_some]
    exact hbytes v (List.getElem?_mem h)

theorem premultiplyAt_step (image img : List Nat) (N : Nat)
    (hbytes : ∀ b ∈ image, b < 256) (hN : 4 * N + 3 < image.length)
    (hlen : img.length = image.length)
    (hdone : ∀ i, i < image.length →
      img[i]? = some (if i < 4 * N then premultipliedByte image i else image.getD i 0)) :
    (premultiplyAt img (4 * N)).length = image.length ∧
      ∀ i, i < image.length →
        (premultiplyAt img (4 * N))[i]?
          = some (if i < 4 * (N + 1) then premultipliedByte image i else image.getD i 0) := by
  have hsame : ∀ j, j < 4 → img.getD (4 * N + j) 0 = image.getD (4 * N + j) 0 := by
    intro j hj
    apply getD_of_getElem?
    rw [hdone (4 * N + j) (by omega)]
    simp
  have h0 := hsame 0 (by omega)
  have h1 := hsame 1 (by omega)
  have h2 := hsame 2 (by omega)
  have h3 := hsame 3 (by omega)
  simp only [Nat.add_zero] at h0
  have e1 : (img.set (4 * N) (scaleByte (img.getD (4 * N) 0)
      (alphaFraction (img.getD (4 * N + 3) 0)))).getD (4 * N + 1) 0 = image.getD (4 * N + 1) 0 := by
    rw [List.getD_eq_getElem?_getD, List.getElem?_set_ne (by omega),
      ← List.getD_eq_getElem?_getD, h1]
  have e2 : ((img.set (4 * N) (scaleByte (img.getD (4 * N) 0)
      (alphaFraction (img.getD (4 * N + 3) 0)))).set (4 * N + 1)
        (scaleByte (image.getD (4 * N + 1) 0)
          (alphaFraction (img.getD (4 * N + 3) 0)))).getD (4 * N + 2) 0
      = image.getD (4 * N + 2) 0 := by
    rw [List.getD_eq_getElem?_getD, List.getElem?_set_ne (by omega),
      List.getElem?_set_ne (by omega), ← List.getD_eq_getElem?_getD, h2]
  have hb := getD_lt_of_bytes image hbytes
  unfold premultiplyAt
  simp only [e1, e2]
  simp only [h0, h3, scaleByte_exact _ _ (hb _) (hb _)]
  refine ⟨by simp [hlen], ?_⟩
  intro i hi
  rw [set3_getElem? img _ _ _ _ i (by omega)]
  have hq : ∀ j, j < 3 → premultipliedByte image (4 * N + j)
      = image.getD (4 * N + j) 0 * image.getD (4 * N + 3) 0 / 255 := by
    intro j hj
    unfold premultipliedByte
    have hm : (4 * N + j) % 4 ≠ 3 := by omega
    have hd : (4 * N + j) / 4 * 4 + 3 = 4 * N + 3 := by omega
    rw [if_neg hm, hd]
  by_cases c0 : i = 4 * N
  · subst c0
    have := hq 0 (by omega)
    simp only [Nat.add_zero] at this
    simp [this]
  · by_cases c1 : i = 4 * N + 1
    · subst c1
      have hlt : 4 * N + 1 < 4 * (N + 1) := by omega
      simp [hq 1 (by omega), hlt]
    · by_cases c2 : i = 4 * N + 2
      · subst c2
        have hlt : 4 * N + 2 < 4 * (N + 1) := by omega
        simp [hq 2 (by omega), hlt]
      · rw [if_neg c0, if_neg c1, if_neg c2, hdone i hi]
        by_cases c3 : i = 4 * N + 3
        · subst c3
          have hm : (4 * N + 3) % 4 = 3 := by omega
          simp [premultipliedByte, hm]
        · by_cases c4 : i < 4 * N
          · have : i < 4 * (N + 1) := by omega
            simp [c4, this]
          · have : ¬ i < 4 * (N + 1) := by omega
            simp [c4, this]

theorem pixelOffset_eq (width height row x : Nat) (hfit : width * height * 4 < 2 ^ 32)
    (hrow : row < height) (hx : x < width) :
    pixelOffset width row x = 4 * (row * width + x) ∧ row * width + x < width * height := by
  have h1 : (row + 1) * width ≤ height * width := Nat.mul_le_mul_right width hrow
  have h2 : (row + 1) * width = row * width + width := by ring
  have h3 : height * width = width * height := Nat.mul_comm _ _
  have h4 : row * width + x < width * height := by omega
  refine ⟨?_, h4⟩
  unfold pixelOffset
  rw [Nat.mod_eq_of_lt (by omega), Nat.mod_eq_of_lt (by omega)]
  omega

theorem premultiply_row (image : List Nat) (width height row : Nat)
    (hbytes : ∀ b ∈ image, b < 256) (hsize : image.length = width * height * 4)
    (hfit : width * height * 4 < 2 ^ 32) (hrow : row < height) (img : List Nat)
    (hlen : img.length = image.length)
    (hdone : ∀ i, i < image.length →
      img[i]? = some (if i < 4 * (row * width) then premultipliedByte image i
        else image.getD i 0))
    (x : Nat) (hx : x ≤ width) :
    ((List.range x).foldl (fun img1 x1 => premultiplyAt img1 (pixelOffset width row x1))
        img).length = image.length ∧
      ∀ i, i < image.length →
        ((List.range x).foldl (fun img1 x1 => premultiplyAt img1 (pixelOffset width row x1))
            img)[i]?
          = some (if i < 4 * (row * width + x) then premultipliedByte image i
              else image.getD i 0) := by
  induction x with
  | zero => exact ⟨by simpa using hlen, by simpa using hdone⟩
  | succ x ih =>
    obtain ⟨ih1, ih2⟩ := ih (by omega)
    obtain ⟨ho, hlt⟩ := pixelOffset_eq width height row x hfit hrow (by omega)
    rw [List.range_succ, List.foldl_append]
    simp only [List.foldl_cons, List.foldl_nil, ho]
    exact premultiplyAt_step image _ (row * width + x) hbytes (by omega) ih1 ih2

theorem premultiply_rows (image : List Nat) (width height : Nat)
    (hbytes : ∀ b ∈ image, b < 256) (hsize : image.length = width * height * 4)
    (hfit : width * height * 4 < 2 ^ 32) (rows : Nat) (hrows : rows ≤ height) :
    ((List.range rows).foldl
        (fun img row =>
          (List.range width).foldl
            (fun img1 x => premultiplyAt img1 (pixelOffset width row x)) img)
        image).length = image.length ∧
      ∀ i, i < image.length →
        ((List.range rows).foldl
            (fun img row =>
              (List.range width).foldl
                (fun img1 x => premultiplyAt img1 (pixelOffset width row x)) img)
            image)[i]?
          = some (if i < 4 * (rows * width) then premultipliedByte image i
              else image.getD i 0) := by
  induction rows with
  | zero =>
    refine ⟨rfl, ?_⟩
    intro i hi
    simp [List.getD_eq_getElem?_getD, List.getElem?_eq_getElem hi]
  | succ rows ih =>
    obtain ⟨ih1, ih2⟩ := ih (by omega)
    rw [List.range_succ, List.foldl_append]
    simp only [List.foldl_cons, List.foldl_nil]
    have h := premultiply_row image width height rows hbytes hsize hfit (by omega) _ ih1 ih2
      width (le_refl _)
    have e : rows * width + width = (rows + 1) * width := by ring
    rw [e] at h
    exact h

theorem premultiplyPass_bytes (width height : Nat) (image : List Nat)
    (hsize : image.length = width * height * 4) (hfit : width * height * 4 < 2 ^ 32)
    (hbytes : ∀ b ∈ image, b < 256) :
    (premultiplyPass width height image).length = image.length ∧
      ∀ i, i < image.length →
        (premultiplyPass width height image)[i]? = some (premultipliedByte image i) := by
  obtain ⟨h1, h2⟩ := premultiply_rows image width height hbytes hsize hfit height (le_refl _)
  refine ⟨h1, ?_⟩
  intro i hi
  have hlt : i < 4 * (height * width) := by
    have : height * width = width * height := Nat.mul_comm _ _
    omega
  have := h2 i hi
  rw [if_pos hlt] at this
  exact this

/-- C9: the premultiplication pass of `PngReader::read` over a `width` by `height` RGBA
buffer keeps the length of the buffer, replaces each colour byte `c` of a pixel with
alpha `a` by `⌊c * a / 255⌋` and keeps the alpha byte, for every pixel; so a fully
opaque pixel (`a = 255`) is unchanged and a pixel with `a = 0` has all colour bytes 0.
The single-precision computation `c * (a / 255.0f)` itself yields `⌊c * a / 255⌋`
for all bytes `c` and `a`. -/
theorem premultiplyPass_premultiplies (width height : Nat) (image : List Nat)
    (hsize : image.length = width * height * 4) (hfit : width * height * 4 < 2 ^ 32)
    (hbytes : ∀ b ∈ image, b < 256) :
    (premultiplyPass width height image).length = image.length ∧
      (∀ c a, c < 256 → a < 256 → scaleByte c (alphaFraction a) = c * a / 255) ∧
      (∀ p r g b a, p < width * height →
        image[4 * p]? = some r → image[4 * p + 1]? = some g →
        image[4 * p + 2]? = some b → image[4 * p + 3]? = some a →
        (premultiplyPass width height image)[4 * p]? = some (r * a / 255) ∧
          (premultiplyPass width height image)[4 * p + 1]? = some (g * a / 255) ∧
          (premultiplyPass width height image)[4 * p + 2]? = some (b * a / 255) ∧
          (premultiplyPass width height image)[4 * p + 3]? = some a ∧
          (a = 255 →
            (premultiplyPass width height image)[4 * p]? = some r ∧
              (premultiplyPass width height image)[4 * p + 1]? = some g ∧
              (premultiplyPass width height image)[4 * p + 2]? = some b) ∧
          (a = 0 →
            (premultiplyPass width height image)[4 * p]? = some 0 ∧
              (premultiplyPass width height image)[4 * p + 1]? = some 0 ∧
              (premultiplyPass width height image)[4 * p + 2]? = some 0)) := by
  obtain ⟨hlen, hall⟩ := premultiplyPass_bytes width height image hsize hfit hbytes
  refine ⟨hlen, scaleByte_exact, ?_⟩
  intro p r g b a hp hr hg hb ha
  have ga := getD_of_getElem? image _ _ ha
  have hcol : ∀ j v, j < 3 → image[4 * p + j]? = some v →
      (premultiplyPass width height image)[4 * p + j]? = some (v * a / 255) := by
    intro j v hj hv
    rw [hall (4 * p + j) (by omega)]
    unfold premultipliedByte
    have hm : (4 * p + j) % 4 ≠ 3 := by omega
    have hd : (4 * p + j) / 4 * 4 + 3 = 4 * p + 3 := by omega
    rw [if_neg hm, hd, ga, getD_of_getElem? image _ _ hv]
  have h0 := hcol 0 r (by omega) hr
  have h1 := hcol 1 g (by omega) hg
  have h2 := hcol 2 b (by omega) hb
  simp only [Nat.add_zero] at h0
  have h3 : (premultiplyPass width height image)[4 * p + 3]? = some a := by
    rw [hall (4 * p + 3) (by omega)]
    unfold premultipliedByte
    have hm : (4 * p + 3) % 4 = 3 := by omega
    rw [if_pos hm, ga]
  refine ⟨h0, h1, h2, h3, ?_, ?_⟩
  · intro h255
    subst h255
    have e : ∀ v : Nat, v * 255 / 255 = v := fun v => Nat.mul_div_cancel v (by norm_num)
    rw [e] at h0 h1 h2
    exact ⟨h0, h1, h2⟩
  · intro hz
    subst hz
    have e : ∀ v : Nat, v * 0 / 255 = 0 := fun v => by simp
    rw [e] at h0 h1 h2
    exact ⟨h0, h1, h2⟩

/-- Instance of `premultiplyPass_premultiplies`: the one-pixel images of the tests
`PNGRoundTrip` (the opaque pixel 128, 0, 0, 255) and `PNGReadNoProfileAlpha`
(the pixel 128, 0, 0, 128, which becomes 64, 0, 0, 128). -/
theorem premultiplyPass_premultiplies_witness :
    ((premultiplyPass 1 1 [128, 0, 0, 255])[0]? = some 128 ∧
        (premultiplyPass 1 1 [128, 0, 0, 255])[1]? = some 0 ∧
        (premultiplyPass 1 1 [128, 0, 0, 255])[2]? = some 0) ∧
      (premultiplyPass 1 1 [128, 0, 0, 128])[0]? = some (128 * 128 / 255) :=
  ⟨((premultiplyPass_premultiplies 1 1 [128, 0, 0, 255] rfl (by norm_num)
      (by decide)).2.2 0 128 0 0 255 (by norm_num) rfl rfl rfl rfl).2.2.2.2.1 rfl,
   ((premultiplyPass_premultiplies 1 1 [128, 0, 0, 128] rfl (by norm_num)
      (by decide)).2.2 0 128 0 0 128 (by norm_num) rfl rfl rfl rfl).1⟩

/-! ## Pending transitions: theorems -/

theorem recalculateLayers_pending
    (f : StyleCalculationParameters → StyleLayer → Nat × Bool) (p : StyleCalculationParameters)
    (layers : List StyleLayer) (sources : List Source) (pending : Bool) :
    (recalculateLayers f p layers sources pending).2.2
      = (pending || layers.any (fun l => (f p l).2)) := by
  induction layers generalizing sources pending with
  | nil => simp [recalculateLayers]
  | cons a rest ih =>
    simp only [recalculateLayers]
    rw [ih]
    simp [Bool.or_assoc]

theorem recalculate_hasTransitions
    (zoomUpdate : ZoomHistory → Zoom → TimePoint → ZoomHistory)
    (f : StyleCalculationParameters → StyleLayer → Nat × Bool) (s : Style) (z : Zoom) :
    (Style.recalculate zoomUpdate f s z).hasTransitions
      = (s.hasPendingTransitions ||
          s.layers.any (fun l =>
            (f { z := z
                 now := s.data.animationTime
                 zoomHistory := zoomUpdate s.zoomHistory z s.data.animationTime
                 defaultFadeDuration := s.data.defaultFadeDuration } l).2)) := by
  simp only [Style.hasTransitions, Style.recalculate]
  rw [recalculateLayers_pending]

/-- C11 (the code at the failing input): a fresh style with one layer whose transition
is pending while the animation clock is below 100.  `recalculate(10)` at clock 0 finds
the transition pending and `hasTransitions()` is true.  At clock 200 the layer reports
no pending transition (on a style whose flag is clear, `recalculate(10)` leaves
`hasTransitions()` false); yet after `recalculate(10)` at clock 200 on the style
that went through the first call, `hasTransitions()` is still true: the flag is or-ed
into and never reset. -/
theorem recalculate_transitions_sticky :
    (Style.recalculate (fun h _ _ => h) (fun p l => (l.props, decide (p.now < 100)))
        { Style.init ⟨[], 0, 0, 0, 0⟩ with layers := [⟨"l1", "s1", 0⟩] } 10).hasTransitions
        = true ∧
      (Style.recalculate (fun h _ _ => h) (fun p l => (l.props, decide (p.now < 100)))
        { Style.init ⟨[], 200, 0, 0, 0⟩ with layers := [⟨"l1", "s1", 0⟩] } 10).hasTransitions
        = false ∧
      (Style.recalculate (fun h _ _ => h) (fun p l => (l.props, decide (p.now < 100)))
        { Style.recalculate (fun h _ _ => h) (fun p l => (l.props, decide (p.now < 100)))
            { Style.init ⟨[], 0, 0, 0, 0⟩ with layers := [⟨"l1", "s1", 0⟩] } 10 with
          data := ⟨[], 200, 0, 0, 0⟩ } 10).hasTransitions = true := by
  decide

end mbgl
